import Mathlib

/-!
Verification development for the CAFE (Context-Aware Fidelity Estimation)
reward subsystem of the Quantum_Optimal_Control repository
(`rl_qoc/rewards/cafe/cafe_reward.py`).

The development shallowly embeds the three methods of `CAFEReward`:

* `get_reward_with_primitive` — shot-count/batch-size validation, the
  direct and post-selected survival-probability paths, and the
  mean-over-probes reward aggregation, over an explicit model of sampler
  bit-array results (a shot is a list of booleans, one per measured bit);
* `get_reward_data` — the seeded input-state sampling step
  (`rng.choice` followed by `np.unique`) and the one-probe-per-unique-sample
  loop;
* `get_real_time_circuit` — modelled at the granularity of appended
  program blocks (resets, input-state preparation switches, the forward
  repetition/context block, inverse-circuit branch blocks, input-state
  inversion switches, final measurement), with the inverse-cache list
  `cycle_circuit_inverses` threaded explicitly so that the Python list
  indexing (and its possible `IndexError`) is reproduced faithfully.

Machine reals (floating point) of the Python code are modelled as
rationals: every survival probability is a quotient of two shot counts,
so no rounding behaviour is involved in any claim considered here.
Fallible code returns `Except String`, the error string mirroring the
exception raised by the Python code at the same program point.
-/

namespace CAFE

/-- One sampler bit-array: the measurement record of one probe for one
batch element. `numBits` is the number of measured classical bits
(`BitArray.num_bits` in Qiskit); `shots` holds one boolean list per shot,
indexed by bit position. -/
structure BitArrayM where
  numBits : Nat
  shots : List (List Bool)
deriving DecidableEq, Repr

/-- A shot reads all-zero: integer outcome 0, i.e. every measured bit is
`false`. This is the event counted by `get_int_counts().get(0, 0)`. -/
def allZero (s : List Bool) : Bool :=
  s.all (fun b => b == false)

/-- `bit_array.get_int_counts().get(0, 0)`: the number of shots whose
integer outcome is 0, i.e. whose bits are all zero. -/
def getIntCountZero (ba : BitArrayM) : Nat :=
  (ba.shots.filter allZero).length

/-- `BitArray.postselect(indices, vals)`: keep exactly the shots whose bit
at each listed index equals the corresponding selection value. Qiskit
raises on an out-of-range index; the model reads a default `false`
instead, so theorems that need in-range indices carry that hypothesis. -/
def postselectM (ba : BitArrayM) (indices : List Nat) (vals : List Bool) : BitArrayM :=
  { numBits := ba.numBits
    shots := ba.shots.filter (fun s =>
      (indices.zip vals).all (fun p => s.getD p.1 false == p.2)) }

/-- One pub of the reward data: declared shot count and parameter-batch
size (`pub.shots` and `pub.parameter_values.shape[0]`). -/
structure PubM where
  shots : Nat
  batchSize : Nat
deriving DecidableEq, Repr

/-- One pub result returned by the sampler primitive: a bit-array per
batch element (`pub_result.data.meas[i]`). -/
structure PubResultM where
  meas : List BitArrayM
deriving DecidableEq, Repr

/-- Direct-path survival probability (measured bit count equals the
causal-cone size): all-zero outcome count over the declared shot count. -/
def survivalDirect (nShots : Nat) (ba : BitArrayM) : ℚ :=
  (getIntCountZero ba : ℚ) / (nShots : ℚ)

/-- Post-selected-path survival probability: the shots are post-selected
on the causal-cone bit indices reading all-zero, and the retained shot
count (`bit_array.num_shots` of the post-selected array) is divided by
the declared shot count. -/
def survivalPost (nShots : Nat) (ccIdx : List Nat) (ccSize : Nat) (ba : BitArrayM) : ℚ :=
  ((postselectM ba ccIdx (List.replicate ccSize false)).shots.length : ℚ) / (nShots : ℚ)

/-- `np.mean(survival_probability, axis=0)` on a list of rows each of
length `batchSize`: entry `b` is the sum of the rows' `b`-th entries
divided by the number of rows. -/
def meanAxis0 (m : List (List ℚ)) (batchSize : Nat) : List ℚ :=
  (List.range batchSize).map (fun b =>
    (m.map (fun row => row.getD b 0)).sum / (m.length : ℚ))

/-- The per-probe survival matrix of `get_reward_with_primitive`: the
direct path when the measured bit count equals the causal-cone size,
otherwise the post-selected path; rows are probes, columns are the first
`batchSize` batch elements. -/
def survivalMatrix (nShots batchSize numBits ccSize : Nat) (ccIdx : List Nat)
    (results : List PubResultM) : List (List ℚ) :=
  if numBits = ccSize then
    results.map (fun r => (r.meas.take batchSize).map (survivalDirect nShots))
  else
    results.map (fun r => (r.meas.take batchSize).map (survivalPost nShots ccIdx ccSize))

/-- The measured bit count the estimator reads from the first probe's
first batch element (`pub_results[0].data.meas[0].num_bits`). -/
def firstNumBits (results : List PubResultM) : Nat :=
  match results with
  | [] => 0
  | r0 :: _ =>
    match r0.meas with
    | [] => 0
    | m0 :: _ => m0.numBits

/-- `CAFEReward.get_reward_with_primitive`: validates that all pubs share
the declared shot count and parameter-batch size of the first pub (the
two assert statements), reads the measured bit count, computes the
survival matrix on the direct or post-selected path, and returns the
mean over probes per batch element. Python list indexing that would
raise is mirrored by the `IndexError` branches. -/
def get_reward_with_primitive (pubs : List PubM) (results : List PubResultM)
    (ccIdx : List Nat) (ccSize : Nat) : Except String (List ℚ) :=
  match pubs with
  | [] => .error "IndexError"
  | p0 :: _ =>
    if pubs.all (fun p => decide (p.shots = p0.shots)) then
      if pubs.all (fun p => decide (p.batchSize = p0.batchSize)) then
        match results with
        | [] => .error "IndexError"
        | r0 :: _ =>
          match r0.meas with
          | [] => .error "IndexError"
          | m0 :: _ =>
            if results.all (fun rr => decide (p0.batchSize ≤ rr.meas.length)) then
              .ok (meanAxis0
                (survivalMatrix p0.shots p0.batchSize m0.numBits ccSize ccIdx results)
                p0.batchSize)
            else .error "IndexError"
      else .error "All pubs should have the same batch size"
    else .error "All pubs should have the same number of shots"

/-- The basis-family identifier `input_states_choice` of `CAFEReward`. -/
inductive InputStatesChoice where
  | pauli4
  | pauli6
  | twoDesign
deriving DecidableEq, Repr

/-- The sampling-relevant state of a `CAFEReward` object: the basis-family
choice and the stored seed from which `input_states_rng` is
(re)initialized. -/
structure CAFERewardM where
  input_states_choice : InputStatesChoice
  input_states_seed : Nat
deriving DecidableEq, Repr

/-- `CAFEReward.set_reward_seed`: stores `seed + 357` and reinitializes
the generator from it. In the model the generator state is exactly the
stored seed. -/
def set_reward_seed (r : CAFERewardM) (seed : Nat) : CAFERewardM :=
  { r with input_states_seed := seed + 357 }

/-- One step of the pseudo-random stream. The numpy generator
(`np.random.default_rng`) is an external library whose only property the
code relies on is that the stream is a deterministic function of the
seed; the model realizes it as a 64-bit linear congruential step. -/
def rngNext (s : Nat) : Nat :=
  (6364136223846793005 * s + 1442695040888963407) % (2 ^ 64)

/-- The first `k` states of the stream started from `seed`. -/
def rngStream (seed : Nat) : Nat → List Nat
  | 0 => []
  | k + 1 => rngNext seed :: rngStream (rngNext seed) k

/-- `rng.choice(n, k, replace=True)`: `k` draws with replacement from
`0..n-1`, as a deterministic function of the generator state. -/
def npChoice (seed n k : Nat) : List Nat :=
  (rngStream seed k).map (fun x => x % n)

/-- `np.unique`: the sorted list of distinct values. -/
def npUnique (l : List Nat) : List Nat :=
  l.dedup.insertionSort (fun a b => a ≤ b)

/-- The input-state sampling step of `get_reward_data`:
`np.unique(self.input_states_rng.choice(numInputStates, sampling, replace=True))`.
`numInputStates` is `len(target.input_states(choice))`, fixed by the
target and the basis family. -/
def sampleInputStates (r : CAFERewardM) (numInputStates sampling : Nat) : List Nat :=
  npUnique (npChoice r.input_states_seed numInputStates sampling)

/-- `np.unravel_index(sample, (card,) * numQubits)`: the row-major
multi-index of `sample` in a `numQubits`-dimensional cube of side
`card`. -/
def unravelIndex (card numQubits sample : Nat) : List Nat :=
  (List.range numQubits).map (fun q => sample / card ^ (numQubits - 1 - q) % card)

/-- The probe bookkeeping of one `CAFERewardData` entry that the sampled
index determines: the flat sample index, its per-qubit multi-index, and
the repetition count. The executable circuit built for the sample is
abstracted away (it is a function of the sample and fixed inputs). -/
structure CAFERewardDataM where
  sampleIndex : Nat
  inputStateIndices : List Nat
  nReps : Nat
deriving DecidableEq, Repr

/-- The probe-construction loop of `CAFEReward.get_reward_data`: one
`CAFERewardData` entry is appended per element of the deduplicated
sample list. -/
def get_reward_data (r : CAFERewardM) (numInputStates card numQubits sampling nReps : Nat) :
    List CAFERewardDataM :=
  (sampleInputStates r numInputStates sampling).map (fun s =>
    { sampleIndex := s
      inputStateIndices := unravelIndex card numQubits s
      nReps := nReps })

/-- One appended block of the real-time program, the granularity at
which `get_real_time_circuit` composes onto `qc`. -/
inductive RTItem where
  /-- `qc.reset(qc.qubits)` at the start of the program. -/
  | reset (qs : List Nat)
  /-- The forward input-state preparation switch on one qubit. -/
  | inputPrep (q : Nat)
  /-- The forward cycle block: the context switch (when several contexts
  are given) or the direct repetition handling, applied once. -/
  | forwardBlock
  /-- One appended nested-branch block applying cached inverse circuits. -/
  | inverseBlock
  /-- The input-state inversion switch on one causal-cone qubit. -/
  | inputInversion (q : Nat)
  /-- The final measurement of the causal-cone qubits into the classical
  register of the given size. -/
  | measure (qs : List Nat) (size : Nat)
deriving DecidableEq, Repr

/-- The structure of one supplied circuit context that
`get_real_time_circuit` inspects: its qubit sequence, its classical
register sizes (empty list when the circuit has no clbits), and whether
`metadata["baseline_circuit"]` is present. -/
structure PrepCircuitM where
  qubits : List Nat
  cregSizes : List Nat
  hasBaseline : Bool
deriving DecidableEq, Repr

/-- The inversion loop of `get_real_time_circuit` (`for i, ref_circ in
enumerate(ref_circuits):`), with the inverse cache
`cycle_circuit_inverses` threaded as the list of row lengths. At
iteration `i` the loop checks the baseline circuit is present, fills
cache row `i` with one inverse per repetition count, then appends the
inverse nested-branch block — whose bodies index `cycle_circuit_inverses[i'][j]`
for every context `i'` when several contexts are given (raising
`IndexError` on a still-empty row), or `cycle_circuit_inverses[0][j]`
for a single context — followed by the input-state inversion switches
over the causal-cone qubits. -/
def invGo (ccQubits : List Nat) (numCtx numReps : Nat) :
    List Bool → Nat → List Nat → Except String (List RTItem)
  | [], _, _ => .ok []
  | b :: rest, i, cache =>
    if b then
      let cache' := cache.set i numReps
      if (if 1 < numCtx then cache'.all (fun len => decide (0 < len))
          else decide (0 < cache'.getD 0 0)) then
        match invGo ccQubits numCtx numReps rest (i + 1) cache' with
        | .ok tail =>
          .ok (RTItem.inverseBlock :: (ccQubits.map RTItem.inputInversion) ++ tail)
        | .error e => .error e
      else .error "IndexError"
    else .error "Baseline circuit not found in metadata"

/-- Sizing of the `meas` classical register: when the empty copy of the
first circuit has no clbits, a fresh register of causal-cone size is
added; otherwise the first existing register is reused and must match
the causal-cone size. -/
def measRegSize (cregSizes : List Nat) (ccSize : Nat) : Except String Nat :=
  match cregSizes with
  | [] => .ok ccSize
  | m :: _ =>
    if m = ccSize then .ok m
    else .error "Classical register size must match the target causal cone size"

/-- `CAFEReward.get_real_time_circuit`, at block granularity: checks all
supplied circuits share the first one's qubit sequence, starts from an
empty copy of the first circuit with all qubits reset, sizes the `meas`
classical register (adding one of causal-cone size when the first
circuit has no clbits, otherwise requiring the first register to match),
appends the forward input-state switches and the forward cycle block,
runs the inversion loop, and appends the final causal-cone measurement.
`numReps` is `len(execution_config.n_reps)`. -/
def get_real_time_circuit (prep : List PrepCircuitM) (ccQubits : List Nat)
    (ccSize numReps : Nat) : Except String (List RTItem) :=
  match prep with
  | [] => .error "IndexError"
  | p0 :: _ =>
    if prep.all (fun p => decide (p.qubits = p0.qubits)) then
      match measRegSize p0.cregSizes ccSize with
      | .error e => .error e
      | .ok measSize =>
        match invGo ccQubits prep.length numReps (prep.map (fun p => p.hasBaseline)) 0
            (List.replicate prep.length 0) with
        | .error e => .error e
        | .ok invItems =>
          .ok ((RTItem.reset p0.qubits :: p0.qubits.map RTItem.inputPrep)
            ++ (RTItem.forwardBlock :: invItems)
            ++ [RTItem.measure ccQubits measSize])
    else .error "All circuits must have the same qubits"

/-- The survival probability as claim C1 words it (spec side, for
comparison with the code): first post-select the shots on the
non-causal-cone (other) measured bits reading all-zero, then take, among
those conditioned shots, the fraction whose causal-cone bits read
all-zero, with the number of shots passing the post-selection as the
denominator. -/
def survivalSpecClaimC1 (ccIdx : List Nat) (ba : BitArrayM) : ℚ :=
  let others := (List.range ba.numBits).filter (fun j => decide (j ∉ ccIdx))
  let conditioned := ba.shots.filter (fun s => others.all (fun j => s.getD j false == false))
  ((conditioned.filter (fun s => ccIdx.all (fun j => s.getD j false == false))).length : ℚ)
    / ((conditioned.length : ℚ))

/-! ## Helper lemmas -/

/-- The deduplicated sample list has no duplicates: `np.unique` sorts the
distinct values. -/
lemma npUnique_nodup (l : List Nat) : (npUnique l).Nodup :=
  (List.perm_insertionSort (fun a b => a ≤ b) l.dedup).nodup_iff.mpr (List.nodup_dedup l)

/-- Zipping the index list with an all-`false` selection list of the same
length turns the post-selection predicate into a condition on the
indexed bits alone. -/
lemma zip_replicate_all_eq (s : List Bool) (ccIdx : List Nat) :
    ((ccIdx.zip (List.replicate ccIdx.length false)).all
        (fun p => s.getD p.1 false == p.2))
      = ccIdx.all (fun j => s.getD j false == false) := by
  induction ccIdx with
  | nil => rfl
  | cons a t ih => simp only [List.length_cons, List.replicate_succ, List.zip_cons_cons,
      List.all_cons, ih]

/-- The post-selected-path survival probability is the number of shots
whose causal-cone bits all read zero, divided by the declared shot
count, whenever the index list length matches the causal-cone size. -/
lemma survivalPost_eq_ccZeroFraction (nShots : Nat) (ccIdx : List Nat) (ccSize : Nat)
    (ba : BitArrayM) (h : ccIdx.length = ccSize) :
    survivalPost nShots ccIdx ccSize ba =
      ((ba.shots.filter (fun s => ccIdx.all (fun j => s.getD j false == false))).length : ℚ)
        / (nShots : ℚ) := by
  subst h
  have hpred : (fun (s : List Bool) => (ccIdx.zip (List.replicate ccIdx.length false)).all
        (fun p => s.getD p.1 false == p.2))
      = fun (s : List Bool) => ccIdx.all (fun j => s.getD j false == false) :=
    funext (fun s => zip_replicate_all_eq s ccIdx)
  simp only [survivalPost, postselectM, hpred]

/-- A duplicate-free index list of length `n` with entries below `n`
covers every position below `n`. -/
lemma mem_of_nodup_length_eq (ccIdx : List Nat) (n : Nat) (hlen : ccIdx.length = n)
    (hnodup : ccIdx.Nodup) (hlt : ∀ j ∈ ccIdx, j < n) :
    ∀ j, j < n → j ∈ ccIdx := by
  have hsub : ccIdx.toFinset ⊆ Finset.range n := by
    intro x hx
    simpa using hlt x (List.mem_toFinset.mp hx)
  have hcard : (Finset.range n).card ≤ ccIdx.toFinset.card := by
    rw [Finset.card_range, List.toFinset_card_of_nodup hnodup, hlen]
  have heq : ccIdx.toFinset = Finset.range n := Finset.eq_of_subset_of_card_le hsub hcard
  intro j hj
  have hjmem : j ∈ ccIdx.toFinset := by
    rw [heq]
    exact Finset.mem_range.mpr hj
  exact List.mem_toFinset.mp hjmem

/-- For a shot of full width, reading all-zero on a covering,
duplicate-free index set is the same as reading all-zero outright. -/
lemma allZero_eq_all_getD (s : List Bool) (n : Nat) (ccIdx : List Nat)
    (hs : s.length = n) (hlen : ccIdx.length = n) (hnodup : ccIdx.Nodup)
    (hlt : ∀ j ∈ ccIdx, j < n) :
    allZero s = ccIdx.all (fun j => s.getD j false == false) := by
  have hcov := mem_of_nodup_length_eq ccIdx n hlen hnodup hlt
  rw [Bool.eq_iff_iff]
  simp only [allZero, List.all_eq_true, beq_iff_eq]
  constructor
  · intro hall j hj
    have hjn : j < s.length := by rw [hs]; exact hlt j hj
    rw [List.getD_eq_getElem s false hjn]
    exact hall _ (List.getElem_mem hjn)
  · intro hall b hb
    obtain ⟨i, hi, hib⟩ := List.mem_iff_getElem.mp hb
    have himem : i ∈ ccIdx := hcov i (by rw [← hs]; exact hi)
    have := hall i himem
    rw [List.getD_eq_getElem s false hi] at this
    rw [← hib]
    exact this

/-- Reading position `b < n` of a function mapped over `List.range n`. -/
lemma getD_map_range (f : Nat → ℚ) (n b : Nat) (hb : b < n) :
    ((List.range n).map f).getD b 0 = f b := by
  have hb1 : b < ((List.range n).map f).length := by simpa using hb
  rw [List.getD_eq_getElem _ _ hb1]
  simp

/-- Reading column `b` of one survival-matrix row: with at least
`bs` bit-arrays available, the row entry is the survival function
applied to the `b`-th bit-array. -/
lemma getD_map_take (f : BitArrayM → ℚ) (l : List BitArrayM) (bs b : Nat)
    (hb : b < bs) (hlen : bs ≤ l.length) :
    ((l.take bs).map f).getD b 0 = f (l.getD b ⟨0, []⟩) := by
  have hbl : b < l.length := lt_of_lt_of_le hb hlen
  have hb1 : b < ((l.take bs).map f).length := by
    simp only [List.length_map, List.length_take]
    omega
  rw [List.getD_eq_getElem _ _ hb1]
  have hb2 : b < (l.take bs).length := by simpa using hb1
  rw [List.getElem_map]
  rw [List.getElem_take]
  rw [List.getD_eq_getElem l _ hbl]

/-- Column `b` of the mean-over-probes of the survival matrix equals the
sum over probes of the per-probe survival of the `b`-th bit-array,
divided by the number of probes. -/
lemma meanAxis0_survivalMatrix_getD (nShots bs numBits ccSize : Nat) (ccIdx : List Nat)
    (results : List PubResultM)
    (hall : ∀ rr ∈ results, bs ≤ rr.meas.length) (b : Nat) (hb : b < bs) :
    (meanAxis0 (survivalMatrix nShots bs numBits ccSize ccIdx results) bs).getD b 0 =
      (results.map (fun res =>
        (if numBits = ccSize then survivalDirect nShots
         else survivalPost nShots ccIdx ccSize) (res.meas.getD b ⟨0, []⟩))).sum
        / ((results.length : ℚ)) := by
  by_cases hnb : numBits = ccSize
  · simp only [survivalMatrix, hnb, if_true, meanAxis0]
    rw [getD_map_range _ _ _ hb, List.map_map, List.length_map]
    congr 1
    refine congrArg List.sum (List.map_congr_left ?_)
    intro rr hrr
    exact getD_map_take _ _ _ _ hb (hall rr hrr)
  · simp only [survivalMatrix, hnb, if_false, meanAxis0]
    rw [getD_map_range _ _ _ hb, List.map_map, List.length_map]
    congr 1
    refine congrArg List.sum (List.map_congr_left ?_)
    intro rr hrr
    exact getD_map_take _ _ _ _ hb (hall rr hrr)

/-- With at least two contexts, the inversion loop always aborts: either
the first context lacks its baseline circuit, or — the first cache row
having just been filled — the branch-attachment step enumerates every
cache row while the second row is still empty and raises IndexError. -/
lemma invGo_multi_context_error (ccQubits : List Nat) (numCtx numReps : Nat)
    (b0 b1 : Bool) (bs : List Bool) (cache0 : List Nat) (h2 : 1 < numCtx) :
    ∃ e, invGo ccQubits numCtx numReps (b0 :: b1 :: bs) 0 (0 :: 0 :: cache0) = .error e := by
  cases b0 with
  | false => exact ⟨"Baseline circuit not found in metadata", rfl⟩
  | true =>
    refine ⟨"IndexError", ?_⟩
    simp [invGo, h2, List.set_cons_zero]

/-! ## Claim theorems -/

/-- C4: for a fixed seed, a fixed sample count, and a fixed basis family,
two independent calls to the input-state sampling step of
`get_reward_data` on the same target (hence the same number of available
input states) produce the same deduplicated set of input-state sample
indices. Each call reinitializes the generator from the stored seed via
`set_reward_seed`, and the sample set is a deterministic function of
that seed. -/
theorem c4_sampling_deterministic (r1 r2 : CAFERewardM)
    (seed numInputStates sampling : Nat)
    (_hfam : r1.input_states_choice = r2.input_states_choice) :
    sampleInputStates (set_reward_seed r1 seed) numInputStates sampling =
      sampleInputStates (set_reward_seed r2 seed) numInputStates sampling := rfl

/-- Witness for C4 at a concrete seed and sample count. -/
theorem c4_sampling_deterministic_witness :
    (CAFERewardM.mk InputStatesChoice.pauli4 0).input_states_choice
        = (CAFERewardM.mk InputStatesChoice.pauli4 99).input_states_choice ∧
      sampleInputStates (set_reward_seed ⟨InputStatesChoice.pauli4, 0⟩ 42) 16 10 =
        sampleInputStates (set_reward_seed ⟨InputStatesChoice.pauli4, 99⟩ 42) 16 10 :=
  ⟨rfl, c4_sampling_deterministic ⟨InputStatesChoice.pauli4, 0⟩
    ⟨InputStatesChoice.pauli4, 99⟩ 42 16 10 rfl⟩

/-- C8: `get_reward_data` deduplicates the sampled input-state indices
(drawn with replacement) before probe construction and emits exactly one
probe per unique sampled index: the probes' sample indices are exactly
the deduplicated sample list, which has no duplicates, and the number of
probes equals the number of unique sampled indices. -/
theorem c8_one_probe_per_unique_sample (r : CAFERewardM)
    (numInputStates card numQubits sampling nReps : Nat) :
    (get_reward_data r numInputStates card numQubits sampling nReps).map
        (fun d => d.sampleIndex)
      = npUnique (npChoice r.input_states_seed numInputStates sampling) ∧
    ((get_reward_data r numInputStates card numQubits sampling nReps).map
        (fun d => d.sampleIndex)).Nodup ∧
    (get_reward_data r numInputStates card numQubits sampling nReps).length
      = (npUnique (npChoice r.input_states_seed numInputStates sampling)).length := by
  have hmap : (get_reward_data r numInputStates card numQubits sampling nReps).map
      (fun d => d.sampleIndex)
      = npUnique (npChoice r.input_states_seed numInputStates sampling) := by
    simp [get_reward_data, sampleInputStates, List.map_map, Function.comp_def]
  refine ⟨hmap, ?_, ?_⟩
  · rw [hmap]
    exact npUnique_nodup _
  · simp [get_reward_data, sampleInputStates]

/-- C9: both survival-probability paths of `get_reward_with_primitive`
produce values in the closed interval from 0 to 1, provided the recorded
shots (hence every outcome count and every retained post-selected shot
count) do not exceed the declared shot count. -/
theorem c9_survival_in_unit_interval (ba : BitArrayM) (nShots : Nat)
    (ccIdx : List Nat) (ccSize : Nat) (h : ba.shots.length ≤ nShots) :
    (0 ≤ survivalDirect nShots ba ∧ survivalDirect nShots ba ≤ 1) ∧
      (0 ≤ survivalPost nShots ccIdx ccSize ba ∧ survivalPost nShots ccIdx ccSize ba ≤ 1) := by
  have hd : getIntCountZero ba ≤ nShots :=
    le_trans (List.length_filter_le _ _) h
  have hp : (postselectM ba ccIdx (List.replicate ccSize false)).shots.length ≤ nShots :=
    le_trans (List.length_filter_le _ _) h
  have hone : ∀ c : Nat, c ≤ nShots → ((c : ℚ) / (nShots : ℚ) ≤ 1) := by
    intro c hc
    rcases Nat.eq_zero_or_pos nShots with h0 | h0
    · subst h0
      simp
    · rw [div_le_one (by exact_mod_cast h0)]
      exact_mod_cast hc
  refine ⟨⟨?_, ?_⟩, ?_, ?_⟩
  · exact div_nonneg (Nat.cast_nonneg _) (Nat.cast_nonneg _)
  · exact hone _ hd
  · exact div_nonneg (Nat.cast_nonneg _) (Nat.cast_nonneg _)
  · exact hone _ hp

/-- Witness for C9 at a concrete bit-array with two shots out of three
declared. -/
theorem c9_survival_in_unit_interval_witness :
    (BitArrayM.mk 2 [[false, false], [true, false]]).shots.length ≤ 3 ∧
      ((0 ≤ survivalDirect 3 ⟨2, [[false, false], [true, false]]⟩ ∧
          survivalDirect 3 ⟨2, [[false, false], [true, false]]⟩ ≤ 1) ∧
        (0 ≤ survivalPost 3 [0, 1] 2 ⟨2, [[false, false], [true, false]]⟩ ∧
          survivalPost 3 [0, 1] 2 ⟨2, [[false, false], [true, false]]⟩ ≤ 1)) :=
  ⟨by decide,
    c9_survival_in_unit_interval ⟨2, [[false, false], [true, false]]⟩ 3 [0, 1] 2 (by decide)⟩

/-- C1, counterexample: on a probe whose measured bit count (2) differs
from the causal-cone size (1), with causal-cone bit index 0 and the two
shots 01 and 10 (bit 0 listed first), the code computes survival
probability 1/2 — it post-selects on the causal-cone bit itself reading
zero and divides by the declared shot count — while the claim's formula
(condition on the other bit reading zero, then the all-zero fraction
among the conditioned shots) gives 0. -/
theorem c1_counterexample :
    get_reward_with_primitive [⟨2, 1⟩]
        [⟨[⟨2, [[false, true], [true, false]]⟩]⟩] [0] 1 = .ok [(1 : ℚ) / 2] ∧
      survivalSpecClaimC1 [0] ⟨2, [[false, true], [true, false]]⟩ = 0 ∧
      ((1 : ℚ) / 2 ≠ 0) := by
  refine ⟨?_, ?_, by norm_num⟩
  · norm_num [get_reward_with_primitive, meanAxis0, survivalMatrix, survivalPost,
      postselectM, List.range_succ]
  · norm_num [survivalSpecClaimC1, List.range_succ]

/-- C1, amended: for every probe handled on the post-selected path of
`get_reward_with_primitive` (measured bit count different from the
causal-cone size) and every batch element, the computed survival
probability equals the number of shots whose causal-cone measured bits
all read zero — with no condition on the other measured bits — divided
by the declared total shot count. -/
theorem c1_amended_post_survival (ba : BitArrayM) (nShots : Nat)
    (ccIdx : List Nat) (ccSize : Nat) (h : ccIdx.length = ccSize) :
    survivalPost nShots ccIdx ccSize ba =
      ((ba.shots.filter (fun s => ccIdx.all (fun j => s.getD j false == false))).length : ℚ)
        / ((nShots : ℚ)) :=
  survivalPost_eq_ccZeroFraction nShots ccIdx ccSize ba h

/-- Witness for the amended C1 at a concrete bit-array. -/
theorem c1_amended_post_survival_witness :
    ([0] : List Nat).length = 1 ∧
      survivalPost 2 [0] 1 ⟨2, [[false, true], [true, false]]⟩ =
        (((BitArrayM.mk 2 [[false, true], [true, false]]).shots.filter
            (fun s => ([0] : List Nat).all (fun j => s.getD j false == false))).length : ℚ)
          / ((2 : Nat) : ℚ) :=
  ⟨rfl, c1_amended_post_survival ⟨2, [[false, true], [true, false]]⟩ 2 [0] 1 rfl⟩

/-- C6: when the measured bit count equals the causal-cone size, the
post-selected path (post-select the causal-cone bits on all-zero and
divide the retained count by the declared shot count) and the direct
path (all-zero outcome count divided by the declared shot count) of
`get_reward_with_primitive` agree on the same raw measurement data,
provided the causal-cone indices are distinct, in range, of full size,
and the shots have the declared width. -/
theorem c6_post_selection_equivalence (ba : BitArrayM) (nShots : Nat)
    (ccIdx : List Nat) (ccSize : Nat)
    (hbits : ba.numBits = ccSize)
    (hlen : ccIdx.length = ccSize)
    (hnodup : ccIdx.Nodup)
    (hlt : ∀ j ∈ ccIdx, j < ba.numBits)
    (hshots : ∀ s ∈ ba.shots, s.length = ba.numBits) :
    survivalDirect nShots ba = survivalPost nShots ccIdx ccSize ba := by
  rw [survivalPost_eq_ccZeroFraction nShots ccIdx ccSize ba hlen]
  unfold survivalDirect getIntCountZero
  have hcongr : ∀ s ∈ ba.shots,
      allZero s = ccIdx.all (fun j => s.getD j false == false) := by
    intro s hs
    refine allZero_eq_all_getD s ccSize ccIdx ?_ hlen hnodup ?_
    · rw [hshots s hs, hbits]
    · intro j hj
      rw [← hbits]
      exact hlt j hj
  rw [List.filter_congr hcongr]

/-- Witness for C6 at a concrete two-bit array with permuted causal-cone
indices. -/
theorem c6_post_selection_equivalence_witness :
    (BitArrayM.mk 2 [[false, false], [true, false]]).numBits = 2 ∧
      ([1, 0] : List Nat).length = 2 ∧
      ([1, 0] : List Nat).Nodup ∧
      (∀ j ∈ ([1, 0] : List Nat), j < (BitArrayM.mk 2 [[false, false], [true, false]]).numBits) ∧
      (∀ s ∈ (BitArrayM.mk 2 [[false, false], [true, false]]).shots,
        s.length = (BitArrayM.mk 2 [[false, false], [true, false]]).numBits) ∧
      survivalDirect 2 ⟨2, [[false, false], [true, false]]⟩ =
        survivalPost 2 [1, 0] 2 ⟨2, [[false, false], [true, false]]⟩ :=
  ⟨rfl, rfl, by decide, by decide, by decide,
    c6_post_selection_equivalence ⟨2, [[false, false], [true, false]]⟩ 2 [1, 0] 2
      rfl rfl (by decide) (by decide) (by decide)⟩

/-- C2, counterexample: the claim asserts the inverse and inversion
blocks are appended exactly once, followed by one final measurement,
regardless of how many circuit contexts are supplied. With two circuit
contexts (same single qubit, both carrying a baseline circuit, one
repetition count) `get_real_time_circuit` builds no such program at all:
the block applying the cached inverses is appended inside the
per-context loop, so during the first loop iteration the branch body for
the second context indexes the still-empty cache row
`cycle_circuit_inverses[1]` and raises IndexError — the nested inverse
branches and the input-state inversions are never appended, and no final
measurement is reached. -/
theorem c2_multi_context_fails :
    get_real_time_circuit [⟨[0], [], true⟩, ⟨[0], [], true⟩] [0] 1 1
      = .error "IndexError" := rfl

/-- C2, amended: when a single circuit context is supplied (with its
baseline circuit present, a nonempty repetition-count list, and a
classical register that is absent or already causal-cone sized), the
program built by `get_real_time_circuit` appends the nested-branch
inverse block and the input-state inversion branches exactly once, after
all forward branches, followed by exactly one final measurement of the
causal-cone qubits into a classical register of causal-cone size; with
more than one context the synthesis aborts with an IndexError before any
program is built. -/
theorem c2_amended_single_context (p0 : PrepCircuitM) (ccQubits : List Nat)
    (ccSize numReps : Nat) (hbase : p0.hasBaseline = true) (hreps : 0 < numReps)
    (hcreg : p0.cregSizes = [] ∨ p0.cregSizes.head? = some ccSize) :
    get_real_time_circuit [p0] ccQubits ccSize numReps
      = .ok ((RTItem.reset p0.qubits :: p0.qubits.map RTItem.inputPrep)
          ++ (RTItem.forwardBlock
            :: RTItem.inverseBlock :: ccQubits.map RTItem.inputInversion)
          ++ [RTItem.measure ccQubits ccSize]) := by
  have hms : measRegSize p0.cregSizes ccSize = .ok ccSize := by
    rcases hcreg with hc | hc
    · rw [hc]
      rfl
    · cases hcl : p0.cregSizes with
      | nil =>
        rw [hcl] at hc
        simp at hc
      | cons m t =>
        rw [hcl] at hc
        have hm : m = ccSize := by simpa using hc
        simp [measRegSize, hm]
  have hinv : invGo ccQubits 1 numReps [p0.hasBaseline] 0 (List.replicate 1 0)
      = .ok (RTItem.inverseBlock :: ccQubits.map RTItem.inputInversion) := by
    rw [hbase]
    simp [invGo, hreps]
  have hall : ([p0].all (fun p => decide (p.qubits = p0.qubits))) = true := by simp
  simp only [get_real_time_circuit, List.length_cons, List.length_nil, List.map_cons,
    List.map_nil, Nat.zero_add]
  rw [if_pos hall, hms]
  dsimp only
  rw [hinv]

/-- Witness for the amended C2 at a concrete two-qubit single context. -/
theorem c2_amended_single_context_witness :
    (PrepCircuitM.mk [0, 1] [] true).hasBaseline = true ∧ (0 : Nat) < 2 ∧
      ((PrepCircuitM.mk [0, 1] [] true).cregSizes = []
        ∨ (PrepCircuitM.mk [0, 1] [] true).cregSizes.head? = some 1) ∧
      get_real_time_circuit [⟨[0, 1], [], true⟩] [0] 1 2
        = .ok ((RTItem.reset [0, 1] :: ([0, 1] : List Nat).map RTItem.inputPrep)
            ++ (RTItem.forwardBlock :: RTItem.inverseBlock
              :: ([0] : List Nat).map RTItem.inputInversion)
            ++ [RTItem.measure [0] 1]) :=
  ⟨rfl, by decide, Or.inl rfl,
    c2_amended_single_context ⟨[0, 1], [], true⟩ [0] 1 2 rfl (by decide) (Or.inl rfl)⟩

/-- C7, counterexample: the claim asserts every (context,
repetition-count) pair's inverse circuit is computed before the
corresponding branch bodies are attached, every branch body applying the
precomputed cached inverse. With three circuit contexts (two qubits, two
repetition counts) the inverse branch bodies over all three contexts are
attached during the first iteration of the per-context loop, when only
the first context's cache row is filled: the branch body for context 1
selects a (context, repetition-count) pair with no cache entry, and the
code raises IndexError. -/
theorem c7_cache_missing_on_attach :
    get_real_time_circuit
        [⟨[0, 1], [], true⟩, ⟨[0, 1], [], true⟩, ⟨[0, 1], [], true⟩] [0, 1] 2 2
      = .error "IndexError" := rfl

/-- C7, amended: a real-time program is finalized only when the inverse
cache is complete before the branch block applying it is attached — that
is, only for a single circuit context with a nonempty repetition-count
list (the single cache row is filled, one entry per repetition count,
before the attachment step) — and the finalized program then contains
exactly one branch block applying the cached inverses; with more than
one context the attachment step runs before the later contexts' cache
entries exist and the synthesis aborts, so no program is ever finalized
with a missing cache entry. -/
theorem c7_amended_cache_before_attach (prep : List PrepCircuitM) (ccQubits : List Nat)
    (ccSize numReps : Nat) (items : List RTItem)
    (h : get_real_time_circuit prep ccQubits ccSize numReps = .ok items) :
    prep.length = 1 ∧ 0 < numReps ∧ items.count RTItem.inverseBlock = 1 := by
  cases prep with
  | nil => cases h
  | cons p0 rest =>
    simp only [get_real_time_circuit] at h
    by_cases hall : ((p0 :: rest).all (fun p => decide (p.qubits = p0.qubits)) = true)
    · rw [if_pos hall] at h
      cases hms : measRegSize p0.cregSizes ccSize with
      | error e =>
        rw [hms] at h
        cases h
      | ok measSize =>
        rw [hms] at h
        dsimp only at h
        cases rest with
        | cons p1 rest' =>
          exfalso
          simp only [List.length_cons, List.map_cons, List.replicate_succ] at h
          obtain ⟨e, he⟩ := invGo_multi_context_error ccQubits (rest'.length + 1 + 1)
            numReps p0.hasBaseline p1.hasBaseline
            (rest'.map (fun p => p.hasBaseline)) (List.replicate rest'.length 0)
            (by omega)
          rw [he] at h
          cases h
        | nil =>
          simp only [List.length_cons, List.length_nil, List.map_cons, List.map_nil,
            Nat.zero_add] at h
          cases hb : p0.hasBaseline with
          | false =>
            rw [hb] at h
            have herr : invGo ccQubits 1 numReps [false] 0 (List.replicate 1 0)
                = .error "Baseline circuit not found in metadata" := rfl
            rw [herr] at h
            cases h
          | true =>
            rw [hb] at h
            by_cases hr : 0 < numReps
            · have hinv : invGo ccQubits 1 numReps [true] 0 (List.replicate 1 0)
                  = .ok (RTItem.inverseBlock :: ccQubits.map RTItem.inputInversion) := by
                simp [invGo, hr]
              rw [hinv] at h
              dsimp only at h
              injection h with h
              subst h
              refine ⟨rfl, hr, ?_⟩
              have hmem1 : RTItem.inverseBlock ∉ p0.qubits.map RTItem.inputPrep := by
                intro hmem
                rcases List.mem_map.mp hmem with ⟨q, _, hq⟩
                cases hq
              have hmem2 : RTItem.inverseBlock ∉ ccQubits.map RTItem.inputInversion := by
                intro hmem
                rcases List.mem_map.mp hmem with ⟨q, _, hq⟩
                cases hq
              simp [List.count_append, List.count_cons,
                List.count_eq_zero.mpr hmem1, List.count_eq_zero.mpr hmem2]
            · have hr0 : numReps = 0 := by omega
              subst hr0
              have herr : invGo ccQubits 1 0 [true] 0 (List.replicate 1 0)
                  = .error "IndexError" := rfl
              rw [herr] at h
              cases h
    · rw [if_neg hall] at h
      cases h

/-- Witness for the amended C7 at a concrete single-context program. -/
theorem c7_amended_cache_before_attach_witness :
    ([(⟨[0], [], true⟩ : PrepCircuitM)] : List PrepCircuitM).length = 1 ∧ (0 : Nat) < 1 ∧
      ([RTItem.reset [0], RTItem.inputPrep 0, RTItem.forwardBlock, RTItem.inverseBlock,
        RTItem.inputInversion 0, RTItem.measure [0] 1] : List RTItem).count
          RTItem.inverseBlock = 1 :=
  c7_amended_cache_before_attach [⟨[0], [], true⟩] [0] 1 1
    [RTItem.reset [0], RTItem.inputPrep 0, RTItem.forwardBlock, RTItem.inverseBlock,
      RTItem.inputInversion 0, RTItem.measure [0] 1] rfl

/-- C10: `get_real_time_circuit` raises a ValueError whenever the
supplied circuits do not all share the first circuit's qubit sequence;
when it returns a program, that program is built over a copy of the
first circuit's structure and begins with a reset of all its qubits. -/
theorem c10_qubit_check_and_reset (prep : List PrepCircuitM) (p0 : PrepCircuitM)
    (rest : List PrepCircuitM) (hp : prep = p0 :: rest)
    (ccQubits : List Nat) (ccSize numReps : Nat) :
    ((∃ p ∈ prep, p.qubits ≠ p0.qubits) →
        get_real_time_circuit prep ccQubits ccSize numReps
          = .error "All circuits must have the same qubits") ∧
      (∀ items, get_real_time_circuit prep ccQubits ccSize numReps = .ok items →
        items.head? = some (RTItem.reset p0.qubits)) := by
  subst hp
  constructor
  · rintro ⟨p, hmem, hne⟩
    have hall : ¬ ((p0 :: rest).all (fun q => decide (q.qubits = p0.qubits)) = true) := by
      intro hall
      exact hne (of_decide_eq_true ((List.all_eq_true.mp hall) p hmem))
    simp only [get_real_time_circuit]
    rw [if_neg hall]
  · intro items h
    by_cases hall : ((p0 :: rest).all (fun q => decide (q.qubits = p0.qubits)) = true)
    · simp only [get_real_time_circuit] at h
      rw [if_pos hall] at h
      split at h
      · cases h
      · split at h
        · cases h
        · injection h with h
          rw [← h]
          rfl
    · simp only [get_real_time_circuit] at h
      rw [if_neg hall] at h
      cases h

/-- Witness for C10: a two-context input with differing qubit sequences
is rejected, and a returned single-context program begins with the
reset. -/
theorem c10_qubit_check_and_reset_witness :
    ([(⟨[0], [], true⟩ : PrepCircuitM), ⟨[1], [], true⟩]
        = (⟨[0], [], true⟩ : PrepCircuitM) :: [⟨[1], [], true⟩]) ∧
      (∃ p ∈ [(⟨[0], [], true⟩ : PrepCircuitM), ⟨[1], [], true⟩],
        p.qubits ≠ (PrepCircuitM.mk [0] [] true).qubits) ∧
      get_real_time_circuit [⟨[0], [], true⟩, ⟨[1], [], true⟩] [0] 1 1
        = .error "All circuits must have the same qubits" :=
  ⟨rfl, ⟨⟨[1], [], true⟩, by decide, by decide⟩,
    (c10_qubit_check_and_reset [⟨[0], [], true⟩, ⟨[1], [], true⟩] ⟨[0], [], true⟩
      [⟨[1], [], true⟩] rfl [0] 1 1).1 ⟨⟨[1], [], true⟩, by decide, by decide⟩⟩

/-- C5: if any pub of the batch disagrees with the first pub in declared
shot count or in parameter-batch size, `get_reward_with_primitive` fails
with the corresponding assertion error and returns no reward — in
particular no partially aggregated reward, since the checks precede the
survival-probability computation. -/
theorem c5_mismatch_is_fatal (pubs : List PubM) (p0 : PubM) (hp : pubs.head? = some p0)
    (results : List PubResultM) (ccIdx : List Nat) (ccSize : Nat)
    (h : ∃ p ∈ pubs, p.shots ≠ p0.shots ∨ p.batchSize ≠ p0.batchSize) :
    get_reward_with_primitive pubs results ccIdx ccSize
        = .error "All pubs should have the same number of shots" ∨
      get_reward_with_primitive pubs results ccIdx ccSize
        = .error "All pubs should have the same batch size" := by
  cases pubs with
  | nil => simp at hp
  | cons q0 qs =>
    have hq : q0 = p0 := by simpa using hp
    subst hq
    by_cases h1 : ((q0 :: qs).all (fun p => decide (p.shots = q0.shots)) = true)
    · right
      have h2 : ¬ ((q0 :: qs).all (fun p => decide (p.batchSize = q0.batchSize)) = true) := by
        obtain ⟨p, hmem, hor⟩ := h
        have hsh : p.shots = q0.shots :=
          of_decide_eq_true ((List.all_eq_true.mp h1) p hmem)
        rcases hor with hne | hne
        · exact absurd hsh hne
        · intro hall
          exact hne (of_decide_eq_true ((List.all_eq_true.mp hall) p hmem))
      simp only [get_reward_with_primitive]
      rw [if_pos h1, if_neg h2]
    · left
      simp only [get_reward_with_primitive]
      rw [if_neg h1]

/-- Witness for C5: two pubs with mismatched shot counts are rejected. -/
theorem c5_mismatch_is_fatal_witness :
    ([(⟨10, 2⟩ : PubM), ⟨5, 2⟩] : List PubM).head? = some (⟨10, 2⟩ : PubM) ∧
      (∃ p ∈ ([(⟨10, 2⟩ : PubM), ⟨5, 2⟩] : List PubM),
        p.shots ≠ (PubM.mk 10 2).shots ∨ p.batchSize ≠ (PubM.mk 10 2).batchSize) ∧
      (get_reward_with_primitive [⟨10, 2⟩, ⟨5, 2⟩] [] [] 1
          = .error "All pubs should have the same number of shots" ∨
        get_reward_with_primitive [⟨10, 2⟩, ⟨5, 2⟩] [] [] 1
          = .error "All pubs should have the same batch size") :=
  ⟨rfl, ⟨⟨5, 2⟩, by decide, Or.inl (by decide)⟩,
    c5_mismatch_is_fatal [⟨10, 2⟩, ⟨5, 2⟩] ⟨10, 2⟩ rfl [] [] 1
      ⟨⟨5, 2⟩, by decide, Or.inl (by decide)⟩⟩

/-- C3: whenever `get_reward_with_primitive` returns a reward vector, it
has one scalar per batch element, and each entry is the arithmetic mean
over all probes of that probe's survival probability (direct or
post-selected path according to the measured bit count) for the batch
element. -/
theorem c3_reward_is_mean_over_probes (pubs : List PubM) (results : List PubResultM)
    (ccIdx : List Nat) (ccSize : Nat) (p0 : PubM) (hp : pubs.head? = some p0)
    (r : List ℚ) (h : get_reward_with_primitive pubs results ccIdx ccSize = .ok r) :
    r.length = p0.batchSize ∧
      ∀ b, b < p0.batchSize →
        r.getD b 0 =
          (results.map (fun res =>
            (if firstNumBits results = ccSize then survivalDirect p0.shots
             else survivalPost p0.shots ccIdx ccSize) (res.meas.getD b ⟨0, []⟩))).sum
            / ((results.length : ℚ)) := by
  cases pubs with
  | nil => simp at hp
  | cons q0 qs =>
    have hq : q0 = p0 := by simpa using hp
    subst hq
    simp only [get_reward_with_primitive] at h
    by_cases h1 : ((q0 :: qs).all (fun p => decide (p.shots = q0.shots)) = true)
    · rw [if_pos h1] at h
      by_cases h2 : ((q0 :: qs).all (fun p => decide (p.batchSize = q0.batchSize)) = true)
      · rw [if_pos h2] at h
        cases results with
        | nil => cases h
        | cons r0 rs =>
          dsimp only at h
          rcases hm : r0.meas with _ | ⟨m0, ms⟩
          · rw [hm] at h
            cases h
          · rw [hm] at h
            dsimp only at h
            by_cases h3 : ((r0 :: rs).all
                (fun rr => decide (q0.batchSize ≤ rr.meas.length)) = true)
            · rw [if_pos h3] at h
              injection h with h
              subst h
              have hall : ∀ rr ∈ (r0 :: rs), q0.batchSize ≤ rr.meas.length := by
                intro rr hrr
                exact of_decide_eq_true ((List.all_eq_true.mp h3) rr hrr)
              have hfnb : firstNumBits (r0 :: rs) = m0.numBits := by
                simp [firstNumBits, hm]
              constructor
              · simp [meanAxis0]
              · intro b hb
                rw [meanAxis0_survivalMatrix_getD q0.shots q0.batchSize m0.numBits ccSize
                  ccIdx (r0 :: rs) hall b hb]
                rw [hfnb]
            · rw [if_neg h3] at h
              cases h
      · rw [if_neg h2] at h
        cases h
    · rw [if_neg h1] at h
      cases h

/-- Witness for C3: one probe, batch size one, direct path; the reward
entry is the single probe's survival probability. -/
theorem c3_reward_is_mean_over_probes_witness :
    ([(⟨2, 1⟩ : PubM)] : List PubM).head? = some (⟨2, 1⟩ : PubM) ∧
      get_reward_with_primitive [⟨2, 1⟩] [⟨[⟨1, [[false]]⟩]⟩] [0] 1 = .ok [(1 : ℚ) / 2] ∧
      ([(1 : ℚ) / 2].length = 1 ∧
        ∀ b, b < 1 →
          ([(1 : ℚ) / 2] : List ℚ).getD b 0 =
            (([⟨[⟨1, [[false]]⟩]⟩] : List PubResultM).map (fun res =>
              (if firstNumBits [⟨[⟨1, [[false]]⟩]⟩] = 1 then survivalDirect 2
               else survivalPost 2 [0] 1) (res.meas.getD b ⟨0, []⟩))).sum
              / ((([⟨[⟨1, [[false]]⟩]⟩] : List PubResultM).length : ℚ))) :=
  ⟨rfl,
    by norm_num [get_reward_with_primitive, meanAxis0, survivalMatrix, survivalDirect,
      getIntCountZero, allZero, List.range_succ],
    c3_reward_is_mean_over_probes [⟨2, 1⟩] [⟨[⟨1, [[false]]⟩]⟩] [0] 1 ⟨2, 1⟩ rfl
      [(1 : ℚ) / 2]
      (by norm_num [get_reward_with_primitive, meanAxis0, survivalMatrix, survivalDirect,
        getIntCountZero, allZero, List.range_succ])⟩

end CAFE
